import Mathlib

/-!
Verification of the XRPL RWA-token / NFT-marketplace backend
(`backend/services/mongodb_service.py`, `backend/services/xrpl_service.py`,
`backend/routes/marketplace_routes.py`, `backend/routes/token_routes.py`).

The MongoDB document store is modelled as explicit Lean state (lists of
documents), Python/Mongo JSON values as the inductive `J`, Python `float`
arithmetic as correctly-rounded binary64 over `ℚ`, and each Python function
as a Lean function threading the store state and returning `Except` for
paths that raise.
-/

/-! ## Python binary64 float model

Python `float` is IEEE-754 binary64 with round-to-nearest, ties-to-even.
We model a float value as the exact rational it denotes, and the rounding
of a real (rational) result to binary64 in the normal range (no overflow,
no subnormals — all prices in the claims are well inside this range).
-/

/-- Round a rational to an integer, ties to even (IEEE default rounding
of the scaled significand). -/
def rne (x : ℚ) : ℤ :=
  let f := ⌊x⌋
  if x - (f : ℚ) < 1/2 then f
  else if (1:ℚ)/2 < x - (f : ℚ) then f + 1
  else if f % 2 = 0 then f else f + 1

/-- Fuel-driven base-2 logarithm on naturals (fuel 400 covers every
magnitude reachable in these claims). -/
def log2fuel : ℕ → ℕ → ℕ
  | 0, _ => 0
  | f + 1, n => if n ≤ 1 then 0 else log2fuel f (n / 2) + 1

/-- Two to an integer power, as a rational. -/
def pow2Q : ℤ → ℚ
  | .ofNat n => ((2 ^ n : ℕ) : ℚ)
  | .negSucc n => 1 / ((2 ^ (n + 1) : ℕ) : ℚ)

/-- Floor of log₂ of a positive rational: a first guess from the bit
lengths of numerator and denominator, corrected downward. -/
def floatExp (q : ℚ) : ℤ :=
  let k : ℤ := (log2fuel 400 q.num.toNat : ℤ) - (log2fuel 400 q.den : ℤ)
  if q < pow2Q k then k - 1 else k

/-- Round a positive rational to the nearest binary64 value
(53-bit significand, ties to even). -/
def roundPos (q : ℚ) : ℚ :=
  let e := floatExp q
  (rne (q * pow2Q (52 - e)) : ℚ) * pow2Q (e - 52)

/-- Round any rational to the nearest binary64 value. -/
def roundFloat (q : ℚ) : ℚ :=
  if q = 0 then 0 else if q < 0 then -(roundPos (-q)) else roundPos q

/-- Python `int(x)` on a float: truncation toward zero. -/
def pyTrunc (q : ℚ) : ℤ :=
  if q < 0 then -⌊-q⌋ else ⌊q⌋

/-- Python `float` of the decimal literal a / 10^d (correctly rounded,
as `float(str)` and JSON number parsing are). -/
def pyFloatOfDecimal (a d : ℕ) : ℚ :=
  roundFloat ((a : ℚ) / ((10 ^ d : ℕ) : ℚ))

/-- The minor-unit price stored by `create_listing`
(`mongodb_service.py` line 209): `int(price_xrp * 1_000_000)`,
where `price_xrp` is a Python float. -/
def priceDrops (price_xrp : ℚ) : ℤ :=
  pyTrunc (roundFloat (price_xrp * 1000000))

/-- Model of `priceDrops` applied to the parsed decimal input a / 10^d, i.e. the
whole pipeline `int(float(input) * 1_000_000)` of the `/list` route. -/
def priceDropsOfDecimal (a d : ℕ) : ℤ :=
  priceDrops (pyFloatOfDecimal a d)

/-! ## JSON values

`J` models the JSON/BSON values handled by the service: Python dicts are
`obj` (an association list in insertion order, duplicate-free when built
by Python), lists are `arr`. Numbers are modelled as integers (every
number a claim touches is one). -/

mutual
inductive J where
  | null : J
  | bool (b : Bool) : J
  | num (n : ℤ) : J
  | str (s : String) : J
  | arr (xs : JList) : J
  | obj (fs : JFields) : J
inductive JList where
  | nil : JList
  | cons (hd : J) (tl : JList) : JList
inductive JFields where
  | nil : JFields
  | cons (k : String) (v : J) (tl : JFields) : JFields
end

mutual
def beqJ : J → J → Bool
  | .null, .null => true
  | .bool b, .bool b' => b = b'
  | .num n, .num n' => n = n'
  | .str s, .str s' => s = s'
  | .arr xs, .arr ys => beqJList xs ys
  | .obj fs, .obj gs => beqJFields fs gs
  | _, _ => false
termination_by structural x => x
def beqJList : JList → JList → Bool
  | .nil, .nil => true
  | .cons x xs, .cons y ys => beqJ x y && beqJList xs ys
  | _, _ => false
termination_by structural x => x
def beqJFields : JFields → JFields → Bool
  | .nil, .nil => true
  | .cons k v tl, .cons k' v' tl' => k = k' && beqJ v v' && beqJFields tl tl'
  | _, _ => false
termination_by structural x => x
end

mutual
theorem beqJ_sound : (a b : J) → beqJ a b = true → a = b
  | .null, b, h => by cases b <;> simp_all [beqJ]
  | .bool x, b, h => by cases b <;> simp_all [beqJ]
  | .num n, b, h => by cases b <;> simp_all [beqJ]
  | .str s, b, h => by cases b <;> simp_all [beqJ]
  | .arr xs, b, h => by
      cases b with
      | arr ys => exact congrArg J.arr (beqJList_sound xs ys (by simpa [beqJ] using h))
      | null => exact absurd h (by simp [beqJ])
      | bool b => exact absurd h (by simp [beqJ])
      | num n => exact absurd h (by simp [beqJ])
      | str s => exact absurd h (by simp [beqJ])
      | obj fs => exact absurd h (by simp [beqJ])
  | .obj fs, b, h => by
      cases b with
      | obj gs => exact congrArg J.obj (beqJFields_sound fs gs (by simpa [beqJ] using h))
      | null => exact absurd h (by simp [beqJ])
      | bool b => exact absurd h (by simp [beqJ])
      | num n => exact absurd h (by simp [beqJ])
      | str s => exact absurd h (by simp [beqJ])
      | arr xs => exact absurd h (by simp [beqJ])
termination_by structural x => x
theorem beqJList_sound : (a b : JList) → beqJList a b = true → a = b
  | .nil, b, h => by cases b <;> simp_all [beqJList]
  | .cons x xs, b, h => by
      cases b with
      | nil => exact absurd h (by simp [beqJList])
      | cons y ys =>
          simp only [beqJList, Bool.and_eq_true] at h
          exact congrArg₂ JList.cons (beqJ_sound x y h.1) (beqJList_sound xs ys h.2)
termination_by structural x => x
theorem beqJFields_sound : (a b : JFields) → beqJFields a b = true → a = b
  | .nil, b, h => by cases b <;> simp_all [beqJFields]
  | .cons k v tl, b, h => by
      cases b with
      | nil => exact absurd h (by simp [beqJFields])
      | cons k2 v2 tl2 =>
          simp only [beqJFields, Bool.and_eq_true, decide_eq_true_eq] at h
          obtain ⟨⟨hk, hv⟩, ht⟩ := h
          subst hk
          exact congrArg₂ (JFields.cons k) (beqJ_sound v v2 hv) (beqJFields_sound tl tl2 ht)
termination_by structural x => x
end

mutual
theorem beqJ_refl : (a : J) → beqJ a a = true
  | .null => rfl
  | .bool b => by simp [beqJ]
  | .num n => by simp [beqJ]
  | .str s => by simp [beqJ]
  | .arr xs => by simpa [beqJ] using beqJList_refl xs
  | .obj fs => by simpa [beqJ] using beqJFields_refl fs
termination_by structural x => x
theorem beqJList_refl : (a : JList) → beqJList a a = true
  | .nil => rfl
  | .cons x xs => by simp [beqJList, beqJ_refl x, beqJList_refl xs]
termination_by structural x => x
theorem beqJFields_refl : (a : JFields) → beqJFields a a = true
  | .nil => rfl
  | .cons k v tl => by simp [beqJFields, beqJ_refl v, beqJFields_refl tl]
termination_by structural x => x
end

instance : DecidableEq J := fun a b =>
  decidable_of_iff (beqJ a b = true) ⟨beqJ_sound a b, fun h => h ▸ beqJ_refl a⟩

instance : DecidableEq JList := fun a b =>
  decidable_of_iff (beqJList a b = true) ⟨beqJList_sound a b, fun h => h ▸ beqJList_refl a⟩

instance : DecidableEq JFields := fun a b =>
  decidable_of_iff (beqJFields a b = true) ⟨beqJFields_sound a b, fun h => h ▸ beqJFields_refl a⟩

/-! ## Canonical (key-sorted) form

`json.dumps(metadata, sort_keys=True)` serializes every object with its
keys in ascending order. We canonicalize the tree first (sorting each
object's fields by key), then serialize. -/

/-- Insert a field before the first field with a key not below it
(insertion step of sorting by key). -/
def insF (k : String) (v : J) : JFields → JFields
  | .nil => .cons k v .nil
  | .cons k' v' tl => if k ≤ k' then .cons k v (.cons k' v' tl) else .cons k' v' (insF k v tl)

/-- Sort fields by key (insertion sort; on duplicate-free key sets this
is the unique ascending ordering, as produced by Python `sorted`). -/
def sortF : JFields → JFields
  | .nil => .nil
  | .cons k v tl => insF k v (sortF tl)

mutual
def canonJ : J → J
  | .null => .null
  | .bool b => .bool b
  | .num n => .num n
  | .str s => .str s
  | .arr xs => .arr (canonList xs)
  | .obj fs => .obj (sortF (canonFields fs))
termination_by structural x => x
def canonList : JList → JList
  | .nil => .nil
  | .cons x xs => .cons (canonJ x) (canonList xs)
termination_by structural x => x
def canonFields : JFields → JFields
  | .nil => .nil
  | .cons k v fs => .cons k (canonJ v) (canonFields fs)
termination_by structural x => x
end

/-- The fields of an object as a plain list of pairs. -/
def JFields.toList : JFields → List (String × J)
  | .nil => []
  | .cons k v tl => (k, v) :: tl.toList

/-- Build object fields from a list of pairs. -/
def JFields.ofList : List (String × J) → JFields
  | [] => .nil
  | (k, v) :: tl => .cons k v (JFields.ofList tl)

/-! ## Byte-level serialization

`json.dumps` with default separators: objects are
`\x7b"k": v, "k2": v2\x7d`, arrays `[v, v2]`. Strings are modelled as
ASCII without characters that JSON would escape (every key and value the
system stores is such a string), so each character is its own byte, as
`.encode()` (UTF-8) produces. Numbers are integers in decimal. -/

/-- Decimal digits of a natural number, as bytes. -/
def serNat (n : ℕ) : List ℕ := (Nat.toDigits 10 n).map Char.toNat

/-- A JSON integer in decimal, with a leading minus sign if negative. -/
def serInt (n : ℤ) : List ℕ :=
  if n < 0 then 45 :: serNat n.natAbs else serNat n.natAbs

/-- A JSON string: a double quote, the character bytes, a double quote. -/
def serStr (s : String) : List ℕ := 34 :: (s.data.map Char.toNat) ++ [34]

mutual
def serJ : J → List ℕ
  | .null => [110, 117, 108, 108]
  | .bool b => if b then [116, 114, 117, 101] else [102, 97, 108, 115, 101]
  | .num n => serInt n
  | .str s => serStr s
  | .arr .nil => [91, 93]
  | .arr (.cons x xs) => 91 :: (serJ x ++ serListRest xs) ++ [93]
  | .obj .nil => [123, 125]
  | .obj (.cons k v fs) => 123 :: (serStr k ++ [58, 32] ++ serJ v ++ serFieldsRest fs) ++ [125]
termination_by structural x => x
def serListRest : JList → List ℕ
  | .nil => []
  | .cons x xs => 44 :: 32 :: (serJ x ++ serListRest xs)
termination_by structural x => x
def serFieldsRest : JFields → List ℕ
  | .nil => []
  | .cons k v fs => 44 :: 32 :: (serStr k ++ [58, 32] ++ serJ v ++ serFieldsRest fs)
termination_by structural x => x
end

/-- The bytes of `json.dumps(m, sort_keys=True)` for a top-level dict. -/
def dumpsSorted (m : JFields) : List ℕ := serJ (canonJ (J.obj m))

/-! ## SHA-256

`hashlib.sha256` per FIPS 180-4, over byte lists, with 32-bit words as
naturals reduced mod 2^32. The round constants are derived, as the
standard defines them, from the fractional parts of the square and cube
roots of the first primes. -/

/-- Bisection step for integer square root (invariant lo² ≤ n < hi²). -/
def isqrtAux (n : ℕ) : ℕ → ℕ → ℕ → ℕ
  | 0, lo, _ => lo
  | f + 1, lo, hi =>
      if hi ≤ lo + 1 then lo
      else
        let m := (lo + hi) / 2
        if m * m ≤ n then isqrtAux n f m hi else isqrtAux n f lo m

/-- Integer square root by bisection. -/
def isqrt (n : ℕ) : ℕ := isqrtAux n 400 0 (n + 1)

/-- Bisection step for integer cube root (invariant lo³ ≤ n < hi³). -/
def icbrtAux (n : ℕ) : ℕ → ℕ → ℕ → ℕ
  | 0, lo, _ => lo
  | f + 1, lo, hi =>
      if hi ≤ lo + 1 then lo
      else
        let m := (lo + hi) / 2
        if m * m * m ≤ n then icbrtAux n f m hi else icbrtAux n f lo m

/-- Integer cube root by bisection. -/
def icbrt (n : ℕ) : ℕ := icbrtAux n 400 0 (n + 1)

/-- First 32 fractional bits of the square root of a prime. -/
def fracSqrt (p : ℕ) : ℕ := isqrt (p * 2 ^ 64) % 2 ^ 32

/-- First 32 fractional bits of the cube root of a prime. -/
def fracCbrt (p : ℕ) : ℕ := icbrt (p * 2 ^ 96) % 2 ^ 32

/-- The first sixty-four primes. -/
def firstPrimes : List ℕ :=
  [2, 3, 5, 7, 11, 13, 17, 19, 23, 29, 31, 37, 41, 43, 47, 53,
   59, 61, 67, 71, 73, 79, 83, 89, 97, 101, 103, 107, 109, 113, 127, 131,
   137, 139, 149, 151, 157, 163, 167, 173, 179, 181, 191, 193, 197, 199, 211, 223,
   227, 229, 233, 239, 241, 251, 257, 263, 269, 271, 277, 281, 283, 293, 307, 311]

/-- SHA-256 initial hash state. -/
def sha256H0 : List ℕ := (firstPrimes.take 8).map fracSqrt

/-- SHA-256 round constants. -/
def sha256K : List ℕ := firstPrimes.map fracCbrt

/-- Addition of 32-bit words. -/
def add32 (a b : ℕ) : ℕ := (a + b) % 2 ^ 32

/-- Right rotation of a 32-bit word. -/
def rotr32 (n x : ℕ) : ℕ := x / 2 ^ n + x % 2 ^ n * 2 ^ (32 - n)

/-- Exclusive or of three words. -/
def xor3 (a b c : ℕ) : ℕ := Nat.xor (Nat.xor a b) c

/-- Schedule sigma-0. -/
def ssig0 (x : ℕ) : ℕ := xor3 (rotr32 7 x) (rotr32 18 x) (x / 2 ^ 3)

/-- Schedule sigma-1. -/
def ssig1 (x : ℕ) : ℕ := xor3 (rotr32 17 x) (rotr32 19 x) (x / 2 ^ 10)

/-- Round Sigma-0. -/
def bsig0 (x : ℕ) : ℕ := xor3 (rotr32 2 x) (rotr32 13 x) (rotr32 22 x)

/-- Round Sigma-1. -/
def bsig1 (x : ℕ) : ℕ := xor3 (rotr32 6 x) (rotr32 11 x) (rotr32 25 x)

/-- Choice function. -/
def chFn (x y z : ℕ) : ℕ := Nat.xor (Nat.land x y) (Nat.land (Nat.xor x 4294967295) z)

/-- Majority function. -/
def majFn (x y z : ℕ) : ℕ := xor3 (Nat.land x y) (Nat.land x z) (Nat.land y z)

/-- Big-endian eight-byte encoding of the bit length. -/
def be8 (n : ℕ) : List ℕ :=
  [n / 2 ^ 56 % 256, n / 2 ^ 48 % 256, n / 2 ^ 40 % 256, n / 2 ^ 32 % 256,
   n / 2 ^ 24 % 256, n / 2 ^ 16 % 256, n / 2 ^ 8 % 256, n % 256]

/-- Merkle–Damgård padding: a 0x80 byte, zeros to 56 mod 64, then the
bit length. -/
def shaPad (ms : List ℕ) : List ℕ :=
  ms ++ 128 :: List.replicate ((64 + 55 - ms.length % 64) % 64) 0 ++ be8 (8 * ms.length)

/-- Group bytes into big-endian 32-bit words. -/
def toWords : List ℕ → List ℕ
  | a :: b :: c :: d :: rest => (((a * 256 + b) * 256 + c) * 256 + d) :: toWords rest
  | _ => []

/-- Group words into 16-word blocks. -/
def toBlocks : List ℕ → List (List ℕ)
  | w0 :: w1 :: w2 :: w3 :: w4 :: w5 :: w6 :: w7 ::
    w8 :: w9 :: w10 :: w11 :: w12 :: w13 :: w14 :: w15 :: rest =>
      [w0, w1, w2, w3, w4, w5, w6, w7, w8, w9, w10, w11, w12, w13, w14, w15] :: toBlocks rest
  | _ => []

/-- Message-schedule extension; words are accumulated in reverse. -/
def schedAux : ℕ → List ℕ → List ℕ
  | 0, acc => acc
  | f + 1, acc =>
      let w := add32 (add32 (ssig1 (acc.getD 1 0)) (acc.getD 6 0))
        (add32 (ssig0 (acc.getD 14 0)) (acc.getD 15 0))
      schedAux f (w :: acc)

/-- The 64-word message schedule of a block. -/
def schedule (block : List ℕ) : List ℕ := (schedAux 48 block.reverse).reverse

/-- One compression round on the eight-word working state. -/
def compressStep (st : List ℕ) (kw : ℕ × ℕ) : List ℕ :=
  match st with
  | [a, b, c, d, e, f, g, h] =>
      let t1 := add32 (add32 (add32 h (bsig1 e)) (add32 (chFn e f g) kw.1)) kw.2
      let t2 := add32 (bsig0 a) (majFn a b c)
      [add32 t1 t2, a, b, c, add32 d t1, e, f, g]
  | other => other

/-- Compress one block into the hash state. -/
def compressBlock (H : List ℕ) (block : List ℕ) : List ℕ :=
  let st := (sha256K.zip (schedule block)).foldl compressStep H
  List.zipWith add32 H st

/-- Hash-state words to big-endian digest bytes. -/
def wordsToBytes : List ℕ → List ℕ
  | [] => []
  | w :: ws => w / 2 ^ 24 % 256 :: w / 2 ^ 16 % 256 :: w / 2 ^ 8 % 256 :: w % 256 :: wordsToBytes ws

/-- SHA-256 digest (32 bytes) of a byte list. -/
def sha256 (msg : List ℕ) : List ℕ :=
  wordsToBytes ((toBlocks (toWords (shaPad msg))).foldl compressBlock sha256H0)

/-- Lower-case hexadecimal digit. -/
def hexChar (n : ℕ) : Char := if n < 10 then Char.ofNat (48 + n) else Char.ofNat (87 + n)

/-- Lower-case hex of a byte list. -/
def bytesHex : List ℕ → List Char
  | [] => []
  | b :: bs => hexChar (b / 16) :: hexChar (b % 16) :: bytesHex bs

/-- Model of `hexdigest()[:16]`: the first sixteen hex characters, i.e. the first
eight digest bytes. -/
def hexTrunc16 (bs : List ℕ) : String := ⟨bytesHex (bs.take 8)⟩

/-- Model of `compute_metadata_hash` (`mongodb_service.py` lines 17-21):
SHA-256 over the canonical key-sorted JSON serialization, truncated to
sixteen hex characters. -/
def compute_metadata_hash (m : JFields) : String := hexTrunc16 (sha256 (dumpsSorted m))

/-- Model of `verify_metadata` (`mongodb_service.py` lines 23-26). -/
def verify_metadata (metadata_hash : String) (m : JFields) : Bool :=
  compute_metadata_hash m = metadata_hash

/-! ## MongoDB document operations

A BSON document is `JFields` (duplicate-free when produced by this
system). Collections are lists of documents in insertion order;
`find_one` returns the first match, `insert_one` appends, `update_one`
with `$set` rewrites the first match. The generated `_id` plays no role
in any claim and is not modelled. `datetime.utcnow()` and `uuid4()` are
passed in as explicit `now` / fresh-identifier arguments. -/

/-- First value bound to a key (Python dict / BSON field access). -/
def getF : JFields → String → Option J
  | .nil, _ => none
  | .cons k v tl, key => if k = key then some v else getF tl key

/-- Bind a key: replace its first binding in place, else append
(Python dict assignment and a single-field `$set` agree on this). -/
def setF : JFields → String → J → JFields
  | .nil, key, v => .cons key v .nil
  | .cons k v0 tl, key, v =>
      if k = key then .cons k v tl else .cons k v0 (setF tl key v)

/-- Apply every binding of the second document to the first, in order
(`dict.update` and a multi-field `$set`). -/
def setAll : JFields → JFields → JFields
  | d, .nil => d
  | d, .cons k v us => setAll (setF d k v) us

/-- Does the document carry exactly the string `s` at `key`? -/
def hasStrF (d : JFields) (key s : String) : Bool :=
  match getF d key with
  | some (.str t) => t = s
  | _ => false

/-- Replace the first document satisfying the filter. -/
def replaceFirst : List JFields → (JFields → Bool) → JFields → List JFields
  | [], _, _ => []
  | d :: tl, p, newDoc => if p d then newDoc :: tl else d :: replaceFirst tl p newDoc

/-! ## Metadata store (`mongodb_service.py` lines 28-101)

The `nft_metadata` collection always holds the four fields written by
`store_metadata`, so its documents are modelled as a record.
`ensure_indexes` (lines 319-321) puts unique indexes on `metadata_id`
and `metadata_hash`, so an insert that would duplicate either raises. -/

structure MetaDoc where
  metadata_id : String
  metadata_hash : String
  metadata : JFields
  created_at : ℤ
deriving DecidableEq

/-- The dict returned by the metadata getters. -/
structure MetaView where
  metadata : JFields
  metadata_hash : String
  verified : Bool
deriving DecidableEq

/-- Model of `store_metadata` (lines 28-57): hash, fresh id, insert; the insert
raises on a duplicate hash or id (unique indexes). -/
def store_metadata (st : List MetaDoc) (m : JFields) (newId : String) (now : ℤ) :
    Except String ((String × String) × List MetaDoc) :=
  let h := compute_metadata_hash m
  if st.any (fun d => d.metadata_hash = h || d.metadata_id = newId) then
    .error "Failed to store metadata: duplicate key error"
  else
    .ok ((h, newId), st ++ [⟨newId, h, m, now⟩])

/-- Model of `get_metadata_by_hash` (lines 59-79): find by hash, re-verify, fail
hard on a mismatch. -/
def get_metadata_by_hash (st : List MetaDoc) (h : String) : Except String MetaView :=
  match st.find? (fun d => d.metadata_hash = h) with
  | none => .error ("Failed to retrieve metadata: Metadata not found for hash: " ++ h)
  | some d =>
      if verify_metadata h d.metadata then .ok ⟨d.metadata, h, true⟩
      else .error "Failed to retrieve metadata: Metadata integrity check failed"

/-- Model of `get_metadata_by_id` (lines 81-101): find by id, report the
verification outcome in the `verified` flag instead of failing. -/
def get_metadata_by_id (st : List MetaDoc) (i : String) : Except String MetaView :=
  match st.find? (fun d => d.metadata_id = i) with
  | none => .error ("Failed to retrieve metadata: Metadata not found for ID: " ++ i)
  | some d => .ok ⟨d.metadata, d.metadata_hash, verify_metadata d.metadata_hash d.metadata⟩

/-! ## Marketplace listings (`mongodb_service.py` lines 186-300)

Listing documents receive arbitrary extra fields from
`update_listing_status`, so they stay raw `JFields`. -/

/-- The `find_one` filter of `create_listing`: same NFT, status active. -/
def matchNftActive (nft : String) (d : JFields) : Bool :=
  hasStrF d "nft_id" nft && hasStrF d "status" "active"

/-- The listing document inserted by `create_listing` (lines 205-214). -/
def listingDoc (nft seller : String) (price_xrp : ℚ) (mh lid : String) (now : ℤ) : JFields :=
  .cons "listing_id" (.str lid) (.cons "nft_id" (.str nft)
    (.cons "seller_address" (.str seller)
    (.cons "price_drops" (.num (priceDrops price_xrp))
    (.cons "metadata_hash" (.str mh)
    (.cons "status" (.str "active")
    (.cons "created_at" (.num now) (.cons "updated_at" (.num now) .nil)))))))

/-- Model of `create_listing` (lines 186-220): reject when an active listing for
the NFT exists, else insert a fresh active listing. -/
def create_listing (st : List JFields) (nft seller : String) (price_xrp : ℚ)
    (mh lid : String) (now : ℤ) : Except String (JFields × List JFields) :=
  if st.any (matchNftActive nft) then
    .error ("Failed to create listing: NFT " ++ nft ++ " is already listed for sale")
  else
    let d := listingDoc nft seller price_xrp mh lid now
    .ok (d, st ++ [d])

/-- The placeholder attached when metadata resolution fails. -/
def errMeta : J := J.obj (.cons "error" (.str "Metadata not found") .nil)

/-- Metadata attachment shared by the listing read paths (lines 231-236
and 253-258): resolve `metadata_hash`, on a `ValueError` attach the
placeholder instead; a listing without a `metadata_hash` field would
raise a `KeyError` that the read paths do not catch. -/
def attachMeta (ms : List MetaDoc) (d : JFields) : Except String JFields :=
  match getF d "metadata_hash" with
  | some (.str h) =>
      match get_metadata_by_hash ms h with
      | .ok r => .ok (setF d "metadata" (J.obj r.metadata))
      | .error _ => .ok (setF d "metadata" errMeta)
  | _ => .error "KeyError: metadata_hash"

/-- Model of `get_active_listings` (lines 222-240). -/
def get_active_listings (ms : List MetaDoc) (st : List JFields) :
    Except String (List JFields) :=
  (st.filter (fun d => hasStrF d "status" "active")).mapM (attachMeta ms)

/-- The `find_one` filter used by the listing-id paths. -/
def listingFilter (lid : String) (d : JFields) : Bool := hasStrF d "listing_id" lid

/-- Model of `get_listing` (lines 242-262). -/
def get_listing (ms : List MetaDoc) (st : List JFields) (lid : String) :
    Except String JFields :=
  match st.find? (listingFilter lid) with
  | none => .error ("Failed to get listing: Listing " ++ lid ++ " not found")
  | some d => attachMeta ms d

/-- The dynamically-typed `additional_data` argument of
`update_listing_status`: absent, a dict, or (as one caller passes it)
a plain string. -/
inductive PyArg where
  | noneArg : PyArg
  | dict (fs : JFields) : PyArg
  | str (s : String) : PyArg
deriving DecidableEq

/-- Tail of `update_listing_status` (lines 285-297): `$set` the merged
update on the first match, raise when `modified_count` is zero (the
merged fields all equal the stored ones), then re-fetch by listing id
(a `TypeError` on the `None` re-fetch if the update renamed the id). -/
def updFinish (st : List JFields) (lid : String) (d upd : JFields) :
    Except String (JFields × List JFields) :=
  let newDoc := setAll d upd
  if newDoc = d then
    .error ("Failed to update listing status: Failed to update listing " ++ lid)
  else
    let st2 := replaceFirst st (listingFilter lid) newDoc
    match st2.find? (listingFilter lid) with
    | some d2 => .ok (d2, st2)
    | none => .error "Failed to update listing status: NoneType is not subscriptable"

/-- Model of `update_listing_status` (lines 264-300): existence check, build
`update_data = dict(status := status, updated_at := now)` then
`update_data.update(additional_data)` — so an extra `status` binding
overrides the argument — and apply. A non-dict `additional_data` makes
`dict.update` raise a `ValueError` that the wrapper re-raises. -/
def update_listing_status (st : List JFields) (lid status : String) (addl : PyArg)
    (now : ℤ) : Except String (JFields × List JFields) :=
  match st.find? (listingFilter lid) with
  | none => .error ("Failed to update listing status: Listing " ++ lid ++ " not found")
  | some d =>
      let base : JFields := .cons "status" (.str status) (.cons "updated_at" (.num now) .nil)
      match addl with
      | .str _ => .error "Failed to update listing status: dictionary update sequence element is not a pair"
      | .noneArg => updFinish st lid d base
      | .dict extra => updFinish st lid d (setAll base extra)

/-! ## Marketplace buy routes (`marketplace_routes.py` lines 83-179)

Ownership verification is an external ledger query; its outcome is the
boolean argument `sellerOwns`. Both buy routes, on an ownership failure,
execute `update_listing_status(listing_id, "invalid", reason=...)` —
but `update_listing_status` has no parameter named `reason`, so Python
raises a `TypeError` at the call site before the function body runs; the
generic `except Exception` handler turns it into a 500 response and the
listing store is left untouched. The route result is the HTTP status
code paired with the resulting listing store. -/

/-- Model of `get_buy_template` (lines 83-127). -/
def get_buy_template (ms : List MetaDoc) (st : List JFields) (lid : String)
    (buyerPresent sellerOwns : Bool) : ℕ × List JFields :=
  if ¬ buyerPresent then (400, st)
  else
    match get_listing ms st lid with
    | .error _ => (400, st)
    | .ok listing =>
        match getF listing "status" with
        | none => (500, st)
        | some s =>
            if s ≠ J.str "active" then (400, st)
            else if ¬ sellerOwns then (500, st)
            else (200, st)

/-- Model of `submit_buy_transaction` (lines 129-179): after the same checks the
payment and offer blobs are submitted to the ledger (external), and the
completion update passes the buyer address string as `additional_data`,
which `update_listing_status` rejects, so the route answers 400 with the
store unchanged. -/
def submit_buy_transaction (ms : List MetaDoc) (st : List JFields) (lid : String)
    (fieldsPresent sellerOwns : Bool) (buyer : String) (now : ℤ) : ℕ × List JFields :=
  if ¬ fieldsPresent then (400, st)
  else
    match get_listing ms st lid with
    | .error _ => (400, st)
    | .ok listing =>
        match getF listing "status" with
        | none => (500, st)
        | some s =>
            if s ≠ J.str "active" then (400, st)
            else if ¬ sellerOwns then (500, st)
            else
              match update_listing_status st lid "completed" (.str buyer) now with
              | .ok (_, st2) => (200, st2)
              | .error _ => (400, st)

/-! ## Token issuance (`xrpl_service.py` lines 69-199) and the
`/api/tokens/create` route (`token_routes.py` lines 65-132)

`submit_and_wait` responses are external inputs; what the service
inspects is `result["meta"]["TransactionResult"]` and `result["hash"]`,
modelled as the two optional fields of `LedgerResult`. -/

structure LedgerResult where
  txnResult : Option String
  txHash : Option String
deriving DecidableEq

/-- Python string interpolation of a value that may be `None`. -/
def showOptRes : Option String → String
  | none => "None"
  | some s => s

/-- Model of `enable_rippling` (lines 69-78): success only on `tesSUCCESS`,
otherwise an `XRPLException` carrying the engine result. -/
def enable_rippling (r : LedgerResult) : Except String LedgerResult :=
  if r.txnResult = some "tesSUCCESS" then .ok r
  else .error ("Failed to enable rippling: " ++ showOptRes r.txnResult)

/-- The outcome of `issue_token`: `TokenResponse(success=True, ...)`
carrying the three ledger step results, or
`ErrorResponse(success=False, error=...)`. -/
inductive IssueResult where
  | ok (enableRes trustRes payRes : LedgerResult) : IssueResult
  | err (msg : String) : IssueResult
deriving DecidableEq

/-- Model of `issue_token` (lines 81-199): enable rippling, create the trust
line, send the issuing payment; each step is accepted only on
`tesSUCCESS` and any failure aborts the whole operation with the
engine result in the error message. -/
def issue_token (en tr pay : LedgerResult) : IssueResult :=
  match enable_rippling en with
  | .error e => .err e
  | .ok _ =>
      if tr.txnResult ≠ some "tesSUCCESS" then
        .err ("Failed to create trustline: " ++ showOptRes tr.txnResult)
      else if pay.txnResult ≠ some "tesSUCCESS" then
        .err ("Failed to issue token: " ++ showOptRes pay.txnResult)
      else .ok en tr pay

/-- A persisted `Token` row (`models.py`), reduced to the fields the
route writes. -/
structure TokenRow where
  name : String
  enable_rippling_tx : String
  trust_set_tx : String
  payment_tx : String
deriving DecidableEq

/-- A persisted `Transaction` row. -/
structure TxRow where
  tx_hash : String
  tx_type : String
  status : String
deriving DecidableEq

/-- The relational registry touched by `/api/tokens/create`. -/
structure RegistryState where
  tokens : List TokenRow
  transactions : List TxRow
deriving DecidableEq

/-- Model of `create_token_route` (lines 65-132), given the issuance outcome
relayed by `create_token`: on success insert the token row and its
three transaction rows and commit; on a reported failure answer 400
without touching the session; on any exception (for instance a missing
`hash` key) roll the session back. The result is
(success flag, HTTP status) with the resulting registry. -/
def create_token_route (walletFound : Bool) (tokenName : String) (issue : IssueResult)
    (st : RegistryState) : (Bool × ℕ) × RegistryState :=
  if ¬ walletFound then ((false, 404), st)
  else
    match issue with
    | .err _ => ((false, 400), st)
    | .ok en tr pay =>
        match en.txHash, tr.txHash, pay.txHash with
        | some h1, some h2, some h3 =>
            ((true, 200),
             ⟨st.tokens ++ [⟨tokenName, h1, h2, h3⟩],
              st.transactions ++ [⟨h1, "enable_rippling", "success"⟩,
                ⟨h2, "trust_set", "success"⟩, ⟨h3, "payment", "success"⟩]⟩)
        | _, _, _ => ((false, 400), st)

/-! ## Field-access lemmas -/

/-- Induction on object fields alone (the mutual recursor needs all
three motives; this one needs none for values). -/
theorem JFields.indOn {motive : JFields → Prop} (hnil : motive .nil)
    (hcons : ∀ k v tl, motive tl → motive (.cons k v tl)) : (fs : JFields) → motive fs
  | .nil => hnil
  | .cons k v tl => hcons k v tl (JFields.indOn hnil hcons tl)
termination_by structural fs => fs

/-- Does the document bind the key at all? -/
def hasKeyF (d : JFields) (k : String) : Bool := (getF d k).isSome

/-- Are the document's keys duplicate-free (always true for documents
produced from Python dicts)? -/
def nodupKeysF : JFields → Bool
  | .nil => true
  | .cons k _ tl => !(hasKeyF tl k) && nodupKeysF tl

theorem getF_setF (d : JFields) (key : String) (v : J) (k : String) :
    getF (setF d key v) k = if key = k then some v else getF d k := by
  induction d using JFields.indOn with
  | hnil =>
      by_cases h : key = k <;> simp [setF, getF, h]
  | hcons k0 v0 tl ih =>
      by_cases h0 : k0 = key
      · subst h0
        by_cases h : k0 = k <;> simp [setF, getF, h]
      · by_cases h : key = k
        · subst h
          simp [setF, getF, ih, h0]
        · simp [setF, getF, ih, h0, h]

theorem getF_setAll_none (us : JFields) (d : JFields) (k : String)
    (h : getF us k = none) : getF (setAll d us) k = getF d k := by
  induction us using JFields.indOn generalizing d with
  | hnil => rfl
  | hcons k0 v0 tl ih =>
      simp only [getF] at h
      by_cases h0 : k0 = k
      · simp [h0] at h
      · simp only [if_neg h0] at h
        simp only [setAll, ih _ h, getF_setF, if_neg h0]

theorem hasKeyF_setF (d : JFields) (key : String) (v : J) (k : String) :
    hasKeyF (setF d key v) k = (decide (key = k) || hasKeyF d k) := by
  by_cases h : key = k <;> simp [hasKeyF, getF_setF, h]

theorem nodupKeysF_setF (d : JFields) (key : String) (v : J)
    (h : nodupKeysF d = true) : nodupKeysF (setF d key v) = true := by
  induction d using JFields.indOn with
  | hnil => simp [setF, nodupKeysF, hasKeyF, getF]
  | hcons k0 v0 tl ih =>
      simp only [nodupKeysF, Bool.and_eq_true, Bool.not_eq_true'] at h
      by_cases h0 : k0 = key
      · subst h0
        simpa [setF, nodupKeysF, Bool.and_eq_true, Bool.not_eq_true'] using h
      · simp only [setF, if_neg h0, nodupKeysF, Bool.and_eq_true, Bool.not_eq_true',
          hasKeyF_setF, ih h.2, and_true, Bool.or_eq_false_iff]
        exact ⟨by simpa using fun hh => h0 hh.symm, h.1⟩

theorem nodupKeysF_setAll (us d : JFields) (h : nodupKeysF d = true) :
    nodupKeysF (setAll d us) = true := by
  induction us using JFields.indOn generalizing d with
  | hnil => exact h
  | hcons k0 v0 tl ih => exact ih _ (nodupKeysF_setF d k0 v0 h)

theorem getF_setAll_some (us : JFields) (d : JFields) (k : String) (v : J)
    (hnd : nodupKeysF us = true) (h : getF us k = some v) :
    getF (setAll d us) k = some v := by
  induction us using JFields.indOn generalizing d with
  | hnil => simp [getF] at h
  | hcons k0 v0 tl ih =>
      simp only [nodupKeysF, Bool.and_eq_true, Bool.not_eq_true'] at hnd
      simp only [getF] at h
      by_cases h0 : k0 = k
      · simp only [if_pos h0] at h
        subst h0
        have hnone : getF tl k0 = none := by
          cases hg : getF tl k0 with
          | none => rfl
          | some w =>
              have h1 := hnd.1
              simp [hasKeyF, hg] at h1
        rw [setAll, getF_setAll_none tl _ _ hnone, getF_setF, if_pos rfl, h]
      · simp only [if_neg h0] at h
        exact ih _ hnd.2 h

theorem find?_replaceFirst (st : List JFields) (p : JFields → Bool) (nd d : JFields)
    (hfind : st.find? p = some d) (hp : p nd = true) :
    (replaceFirst st p nd).find? p = some nd := by
  induction st with
  | nil => simp at hfind
  | cons x tl ih =>
      by_cases hx : p x = true
      · simp [replaceFirst, hx, List.find?_cons_of_pos, hp]
      · rw [List.find?_cons_of_neg _ (by simp [hx])] at hfind
        simp only [replaceFirst, if_neg (by simp [hx] : ¬ p x = true)]
        rw [List.find?_cons_of_neg _ (by simp [hx])]
        exact ih hfind

/-- The listing store after a `create_listing` call: unchanged when the
call raises. -/
def listingsAfterCreate (st : List JFields) (nft seller : String) (price_xrp : ℚ)
    (mh lid : String) (now : ℤ) : List JFields :=
  match create_listing st nft seller price_xrp mh lid now with
  | .ok (_, st2) => st2
  | .error _ => st

/-- C1: an active listing for the same NFT makes `create_listing` fail
with the conflict error and leave the store unchanged; without one the
call succeeds and appends a fresh listing whose status is active. -/
theorem create_listing_active_conflict (st : List JFields) (nft seller : String)
    (price_xrp : ℚ) (mh lid : String) (now : ℤ) :
    (st.any (matchNftActive nft) = true →
      create_listing st nft seller price_xrp mh lid now =
        .error ("Failed to create listing: NFT " ++ nft ++ " is already listed for sale") ∧
      listingsAfterCreate st nft seller price_xrp mh lid now = st) ∧
    (st.any (matchNftActive nft) = false →
      create_listing st nft seller price_xrp mh lid now =
        .ok (listingDoc nft seller price_xrp mh lid now,
             st ++ [listingDoc nft seller price_xrp mh lid now]) ∧
      hasStrF (listingDoc nft seller price_xrp mh lid now) "status" "active" = true) := by
  constructor
  · intro h
    constructor
    · simp [create_listing, h]
    · simp [listingsAfterCreate, create_listing, h]
  · intro h
    constructor
    · simp [create_listing, h]
    · simp [listingDoc, hasStrF, getF]

/-- C1 witness: on a store holding one active listing for NFT `"N"` the
conflict branch fires; on the empty store creation succeeds. -/
theorem create_listing_active_conflict_witness :
    ([listingDoc "N" "S" 1 "h0" "L0" 0].any (matchNftActive "N") = true ∧
      create_listing [listingDoc "N" "S" 1 "h0" "L0" 0] "N" "S2" 2 "h1" "L1" 5 =
        .error ("Failed to create listing: NFT " ++ "N" ++ " is already listed for sale")) ∧
    (([] : List JFields).any (matchNftActive "N") = false ∧
      create_listing [] "N" "S" 1 "h0" "L0" 0 =
        .ok (listingDoc "N" "S" 1 "h0" "L0" 0, [] ++ [listingDoc "N" "S" 1 "h0" "L0" 0])) := by
  refine ⟨⟨by decide, ?_⟩, ⟨by decide, ?_⟩⟩
  · exact ((create_listing_active_conflict [listingDoc "N" "S" 1 "h0" "L0" 0]
      "N" "S2" 2 "h1" "L1" 5).1 (by decide)).1
  · exact ((create_listing_active_conflict [] "N" "S" 1 "h0" "L0" 0).2 (by decide)).1

theorem getF_base_status (s : String) (now : ℤ) :
    getF (.cons "status" (.str s) (.cons "updated_at" (.num now) .nil)) "status" =
      some (J.str s) := by
  simp [getF]

theorem getF_base_updated (s : String) (now : ℤ) :
    getF (.cons "status" (.str s) (.cons "updated_at" (.num now) .nil)) "updated_at" =
      some (J.num now) := by
  simp [getF]

theorem nodup_base (s : String) (now : ℤ) :
    nodupKeysF (.cons "status" (.str s) (.cons "updated_at" (.num now) .nil)) = true := by
  simp [nodupKeysF, hasKeyF, getF]

instance {e a : Type} [DecidableEq e] [DecidableEq a] : DecidableEq (Except e a) :=
  fun x y =>
    match x, y with
    | .ok u, .ok w => decidable_of_iff (u = w) (by simp)
    | .error u, .error w => decidable_of_iff (u = w) (by simp)
    | .ok _, .error _ => isFalse (fun hh => Except.noConfusion hh)
    | .error _, .ok _ => isFalse (fun hh => Except.noConfusion hh)

theorem updFinish_ok (st : List JFields) (lid : String) (d upd : JFields)
    (hfind : st.find? (listingFilter lid) = some d)
    (hne : setAll d upd ≠ d)
    (hfil : listingFilter lid (setAll d upd) = true) :
    updFinish st lid d upd =
      .ok (setAll d upd, replaceFirst st (listingFilter lid) (setAll d upd)) := by
  simp only [updFinish, if_neg hne,
    find?_replaceFirst st (listingFilter lid) (setAll d upd) d hfind hfil]

/-- C2 (amended): `update_listing_status` with a dict of extra fields
that does not itself bind `status`, `updated_at` or `listing_id` fails
exactly when no listing has the id; on the first listing with the id —
whatever its current status, no transition is validated — it succeeds,
overwrites the status with the argument, stamps `updated_at`, and merges
every extra field, provided the call's timestamp differs from the
stored one (else Mongo reports nothing modified and the code raises). -/
theorem update_listing_status_spec
    (st : List JFields) (lid s : String) (extra : JFields) (now : ℤ)
    (hnd : nodupKeysF extra = true)
    (hs : getF extra "status" = none)
    (hu : getF extra "updated_at" = none)
    (hl : getF extra "listing_id" = none) :
    (st.find? (listingFilter lid) = none →
      update_listing_status st lid s (.dict extra) now =
        .error ("Failed to update listing status: Listing " ++ lid ++ " not found")) ∧
    (∀ d, st.find? (listingFilter lid) = some d →
      getF d "updated_at" ≠ some (J.num now) →
      ∃ nd, nd = setAll d (setAll (.cons "status" (.str s)
          (.cons "updated_at" (.num now) .nil)) extra) ∧
        update_listing_status st lid s (.dict extra) now =
          .ok (nd, replaceFirst st (listingFilter lid) nd) ∧
        getF nd "status" = some (.str s) ∧
        getF nd "updated_at" = some (J.num now) ∧
        (∀ k v, getF extra k = some v → getF nd k = some v)) := by
  constructor
  · intro hfind
    simp [update_listing_status, hfind]
  · intro d hfind hnow
    have hpd := List.find?_some hfind
    set base : JFields := .cons "status" (.str s) (.cons "updated_at" (.num now) .nil)
      with hbase
    set upd := setAll base extra with hupd
    set nd := setAll d upd with hndq
    have hndupd : nodupKeysF upd = true := nodupKeysF_setAll extra base (nodup_base s now)
    have hupds : getF upd "status" = some (J.str s) := by
      rw [hupd, getF_setAll_none extra base _ hs, getF_base_status]
    have hupdu : getF upd "updated_at" = some (J.num now) := by
      rw [hupd, getF_setAll_none extra base _ hu, getF_base_updated]
    have hupdl : getF upd "listing_id" = none := by
      rw [hupd, getF_setAll_none extra base _ hl]
      simp [getF]
    have hnds : getF nd "status" = some (J.str s) :=
      getF_setAll_some upd d _ _ hndupd hupds
    have hndu : getF nd "updated_at" = some (J.num now) :=
      getF_setAll_some upd d _ _ hndupd hupdu
    have hndl : getF nd "listing_id" = getF d "listing_id" := by
      rw [hndq, getF_setAll_none upd d _ hupdl]
    have hne : nd ≠ d := by
      intro he
      rw [he] at hndu
      exact hnow hndu
    have hfilter : listingFilter lid nd = true := by
      have : listingFilter lid d = true := hpd
      simpa [listingFilter, hasStrF, hndl] using this
    refine ⟨nd, rfl, ?_, hnds, hndu, ?_⟩
    · rw [update_listing_status, hfind]
      show updFinish st lid d upd = _
      exact updFinish_ok st lid d upd hfind (by simpa [hndq] using hne)
        (by simpa [hndq] using hfilter)
    · intro k v hkv
      exact getF_setAll_some upd d k v hndupd
        (getF_setAll_some extra base k v hnd hkv)

/-- C2 witness: a store with one completed listing, a fresh timestamp
and extra field; both branches of the theorem fire. -/
theorem update_listing_status_spec_witness :
    (nodupKeysF (.cons "buyer_address" (J.str "B") .nil) = true ∧
     getF (.cons "buyer_address" (J.str "B") .nil) "status" = none ∧
     getF (.cons "buyer_address" (J.str "B") .nil) "updated_at" = none ∧
     getF (.cons "buyer_address" (J.str "B") .nil) "listing_id" = none) ∧
    (([] : List JFields).find? (listingFilter "L1") = none ∧
      update_listing_status [] "L1" "cancelled"
        (.dict (.cons "buyer_address" (J.str "B") .nil)) 9 =
        .error ("Failed to update listing status: Listing " ++ "L1" ++ " not found")) ∧
    ([JFields.cons "listing_id" (J.str "L1")
        (.cons "status" (J.str "completed") (.cons "updated_at" (J.num 0) .nil))].find?
        (listingFilter "L1") =
      some (JFields.cons "listing_id" (J.str "L1")
        (.cons "status" (J.str "completed") (.cons "updated_at" (J.num 0) .nil))) ∧
     getF (JFields.cons "listing_id" (J.str "L1")
        (.cons "status" (J.str "completed") (.cons "updated_at" (J.num 0) .nil)))
        "updated_at" ≠ some (J.num 9) ∧
     ∃ nd, nd = setAll (JFields.cons "listing_id" (J.str "L1")
          (.cons "status" (J.str "completed") (.cons "updated_at" (J.num 0) .nil)))
          (setAll (.cons "status" (.str "cancelled") (.cons "updated_at" (.num 9) .nil))
            (.cons "buyer_address" (J.str "B") .nil)) ∧
        update_listing_status
          [JFields.cons "listing_id" (J.str "L1")
            (.cons "status" (J.str "completed") (.cons "updated_at" (J.num 0) .nil))]
          "L1" "cancelled" (.dict (.cons "buyer_address" (J.str "B") .nil)) 9 =
          .ok (nd, replaceFirst
            [JFields.cons "listing_id" (J.str "L1")
              (.cons "status" (J.str "completed") (.cons "updated_at" (J.num 0) .nil))]
            (listingFilter "L1") nd) ∧
        getF nd "status" = some (.str "cancelled") ∧
        getF nd "updated_at" = some (J.num 9) ∧
        (∀ k v, getF (JFields.cons "buyer_address" (J.str "B") .nil) k = some v →
          getF nd k = some v)) := by
  refine ⟨⟨by decide, by decide, by decide, by decide⟩, ⟨by decide, ?_⟩, by decide, by decide, ?_⟩
  · exact (update_listing_status_spec [] "L1" "cancelled"
      (.cons "buyer_address" (J.str "B") .nil) 9
      (by decide) (by decide) (by decide) (by decide)).1 (by decide)
  · exact (update_listing_status_spec
      [JFields.cons "listing_id" (J.str "L1")
        (.cons "status" (J.str "completed") (.cons "updated_at" (J.num 0) .nil))]
      "L1" "cancelled" (.cons "buyer_address" (J.str "B") .nil) 9
      (by decide) (by decide) (by decide) (by decide)).2 _ (by decide) (by decide)

/-- C2 counterexample: as literally stated the claim fails — when the
extra dict itself binds `status`, the stored status is the extra value,
not the `new_status` argument: forcing `"cancelled"` with
`extra = dict(status := "hacked")` succeeds but stores `"hacked"`. -/
theorem update_listing_status_extra_overrides :
    update_listing_status
      [JFields.cons "listing_id" (J.str "L1")
        (.cons "status" (J.str "completed") (.cons "updated_at" (J.num 0) .nil))]
      "L1" "cancelled" (.dict (.cons "status" (J.str "hacked") .nil)) 9 =
      .ok (JFields.cons "listing_id" (J.str "L1")
        (.cons "status" (J.str "hacked") (.cons "updated_at" (J.num 9) .nil)),
        [JFields.cons "listing_id" (J.str "L1")
          (.cons "status" (J.str "hacked") (.cons "updated_at" (J.num 9) .nil))]) ∧
    getF (JFields.cons "listing_id" (J.str "L1")
      (.cons "status" (J.str "hacked") (.cons "updated_at" (J.num 9) .nil))) "status" ≠
      some (J.str "cancelled") := by
  exact ⟨by decide, by decide⟩

/-- C10: an extra dict binding `status` silently overrides the
`new_status` argument — the merge happens after the status field is
set, so the stored status is the extra value, for any listing found. -/
theorem update_listing_status_status_override
    (st : List JFields) (lid s : String) (extra : JFields) (now : ℤ) (v : J)
    (hnd : nodupKeysF extra = true)
    (hv : getF extra "status" = some v)
    (hu : getF extra "updated_at" = none)
    (hl : getF extra "listing_id" = none)
    (d : JFields) (hfind : st.find? (listingFilter lid) = some d)
    (hnow : getF d "updated_at" ≠ some (J.num now)) :
    ∃ nd st2, update_listing_status st lid s (.dict extra) now = .ok (nd, st2) ∧
      getF nd "status" = some v := by
  set base : JFields := .cons "status" (.str s) (.cons "updated_at" (.num now) .nil)
    with hbase
  set upd := setAll base extra with hupd
  set nd := setAll d upd with hndq
  have hndupd : nodupKeysF upd = true := nodupKeysF_setAll extra base (nodup_base s now)
  have hupds : getF upd "status" = some v := getF_setAll_some extra base _ _ hnd hv
  have hupdu : getF upd "updated_at" = some (J.num now) := by
    rw [hupd, getF_setAll_none extra base _ hu, getF_base_updated]
  have hnds : getF nd "status" = some v := getF_setAll_some upd d _ _ hndupd hupds
  have hndu : getF nd "updated_at" = some (J.num now) :=
    getF_setAll_some upd d _ _ hndupd hupdu
  have hne : nd ≠ d := by
    intro he
    rw [he] at hndu
    exact hnow hndu
  have hpd := List.find?_some hfind
  have hupdl : getF upd "listing_id" = none := by
    rw [hupd, getF_setAll_none extra base _ hl]
    simp [getF]
  have hndl : getF nd "listing_id" = getF d "listing_id" := by
    rw [hndq, getF_setAll_none upd d _ hupdl]
  have hfilter : listingFilter lid nd = true := by
    have hd : listingFilter lid d = true := hpd
    simpa [listingFilter, hasStrF, hndl] using hd
  rw [update_listing_status, hfind]
  show ∃ nd2 st2, updFinish st lid d upd = .ok (nd2, st2) ∧ getF nd2 "status" = some v
  rw [updFinish_ok st lid d upd hfind (by simpa [hndq] using hne)
    (by simpa [hndq] using hfilter)]
  exact ⟨nd, replaceFirst st (listingFilter lid) nd, rfl, hnds⟩

/-- C10 witness: forcing status `"cancelled"` while the extra dict binds
`status := "sold"` stores `"sold"`. -/
theorem update_listing_status_status_override_witness :
    (nodupKeysF (.cons "status" (J.str "sold") .nil) = true ∧
     getF (.cons "status" (J.str "sold") .nil) "status" = some (J.str "sold") ∧
     getF (.cons "status" (J.str "sold") .nil) "updated_at" = none ∧
     getF (.cons "status" (J.str "sold") .nil) "listing_id" = none ∧
     [JFields.cons "listing_id" (J.str "L1")
        (.cons "status" (J.str "completed") (.cons "updated_at" (J.num 0) .nil))].find?
        (listingFilter "L1") =
      some (JFields.cons "listing_id" (J.str "L1")
        (.cons "status" (J.str "completed") (.cons "updated_at" (J.num 0) .nil))) ∧
     getF (JFields.cons "listing_id" (J.str "L1")
        (.cons "status" (J.str "completed") (.cons "updated_at" (J.num 0) .nil)))
        "updated_at" ≠ some (J.num 9)) ∧
    (∃ nd st2, update_listing_status
        [JFields.cons "listing_id" (J.str "L1")
          (.cons "status" (J.str "completed") (.cons "updated_at" (J.num 0) .nil))]
        "L1" "cancelled" (.dict (.cons "status" (J.str "sold") .nil)) 9 = .ok (nd, st2) ∧
      getF nd "status" = some (J.str "sold")) := by
  refine ⟨⟨by decide, by decide, by decide, by decide, by decide, by decide⟩, ?_⟩
  exact update_listing_status_status_override
    [JFields.cons "listing_id" (J.str "L1")
      (.cons "status" (J.str "completed") (.cons "updated_at" (J.num 0) .nil))]
    "L1" "cancelled" (.cons "status" (J.str "sold") .nil) 9 (J.str "sold")
    (by decide) (by decide) (by decide) (by decide)
    (JFields.cons "listing_id" (J.str "L1")
      (.cons "status" (J.str "completed") (.cons "updated_at" (J.num 0) .nil)))
    (by decide) (by decide)

/-- C3: on an active listing whose seller no longer owns the NFT, both
buy routes answer 500 — the `reason=` keyword call into
`update_listing_status` raises a `TypeError` — and the listing store is
unchanged: the listing keeps status `"active"` and is never transitioned
to `"invalid"` with a reason, contrary to the spec. -/
theorem buy_routes_ownership_failure_no_invalidation :
    get_buy_template []
      [JFields.cons "listing_id" (J.str "L1") (.cons "nft_id" (J.str "N")
        (.cons "status" (J.str "active") (.cons "metadata_hash" (J.str "h") .nil)))]
      "L1" true false =
      (500, [JFields.cons "listing_id" (J.str "L1") (.cons "nft_id" (J.str "N")
        (.cons "status" (J.str "active") (.cons "metadata_hash" (J.str "h") .nil)))]) ∧
    submit_buy_transaction []
      [JFields.cons "listing_id" (J.str "L1") (.cons "nft_id" (J.str "N")
        (.cons "status" (J.str "active") (.cons "metadata_hash" (J.str "h") .nil)))]
      "L1" true false "B" 7 =
      (500, [JFields.cons "listing_id" (J.str "L1") (.cons "nft_id" (J.str "N")
        (.cons "status" (J.str "active") (.cons "metadata_hash" (J.str "h") .nil)))]) ∧
    hasStrF (JFields.cons "listing_id" (J.str "L1") (.cons "nft_id" (J.str "N")
        (.cons "status" (J.str "active") (.cons "metadata_hash" (J.str "h") .nil))))
      "status" "active" = true ∧
    hasStrF (JFields.cons "listing_id" (J.str "L1") (.cons "nft_id" (J.str "N")
        (.cons "status" (J.str "active") (.cons "metadata_hash" (J.str "h") .nil))))
      "status" "invalid" = false := by
  exact ⟨by decide, by decide, by decide, by decide⟩

unseal Rat.mul Rat.add Rat.sub Rat.inv in
set_option maxRecDepth 1000000 in
/-- C4: the stored minor-unit price is the truncated binary64 product,
which drifts: major-unit input 2.01 (two decimal places) stores
2009999 drops, not the exact 2010000; the spec's example 12.5 does
round-trip exactly. -/
theorem price_drops_float_drift :
    priceDropsOfDecimal 201 2 = 2009999 ∧
    (2009999 : ℤ) ≠ 201 * 10000 ∧
    priceDropsOfDecimal 125 1 = 12500000 := by
  exact ⟨by decide, by decide, by decide⟩

/-- C5: whenever any of the three ledger steps of token issuance is not
`tesSUCCESS`, `issue_token` reports a failure and the `/api/tokens/create`
route leaves the registry exactly as it was — no Token row and no
Transaction row is persisted — answering failure to the caller. -/
theorem token_creation_failure_persists_nothing
    (en tr pay : LedgerResult)
    (hfail : en.txnResult ≠ some "tesSUCCESS" ∨ tr.txnResult ≠ some "tesSUCCESS" ∨
      pay.txnResult ≠ some "tesSUCCESS") :
    ∃ msg, issue_token en tr pay = .err msg ∧
      ∀ (wf : Bool) (name : String) (st : RegistryState),
        create_token_route wf name (issue_token en tr pay) st =
          ((false, if wf then 400 else 404), st) := by
  have herr : ∃ msg, issue_token en tr pay = .err msg := by
    by_cases h1 : en.txnResult = some "tesSUCCESS"
    · by_cases h2 : tr.txnResult = some "tesSUCCESS"
      · have h3 : pay.txnResult ≠ some "tesSUCCESS" := by tauto
        exact ⟨"Failed to issue token: " ++ showOptRes pay.txnResult,
          by simp [issue_token, enable_rippling, h1, h2, h3]⟩
      · exact ⟨"Failed to create trustline: " ++ showOptRes tr.txnResult,
          by simp [issue_token, enable_rippling, h1, h2]⟩
    · exact ⟨"Failed to enable rippling: " ++ showOptRes en.txnResult,
        by simp [issue_token, enable_rippling, h1]⟩
  obtain ⟨msg, hmsg⟩ := herr
  refine ⟨msg, hmsg, ?_⟩
  intro wf name st
  rw [hmsg]
  cases wf <;> simp [create_token_route]

/-- C5 witness: a failing third (payment) step leaves the registry
empty and yields a failure response. -/
theorem token_creation_failure_persists_nothing_witness :
    ((⟨some "tesSUCCESS", some "A"⟩ : LedgerResult).txnResult ≠ some "tesSUCCESS" ∨
     (⟨some "tesSUCCESS", some "B"⟩ : LedgerResult).txnResult ≠ some "tesSUCCESS" ∨
     (⟨some "tecUNFUNDED_PAYMENT", some "C"⟩ : LedgerResult).txnResult ≠ some "tesSUCCESS") ∧
    (∃ msg, issue_token ⟨some "tesSUCCESS", some "A"⟩ ⟨some "tesSUCCESS", some "B"⟩
        ⟨some "tecUNFUNDED_PAYMENT", some "C"⟩ = .err msg ∧
      ∀ (wf : Bool) (name : String) (st : RegistryState),
        create_token_route wf name
          (issue_token ⟨some "tesSUCCESS", some "A"⟩ ⟨some "tesSUCCESS", some "B"⟩
            ⟨some "tecUNFUNDED_PAYMENT", some "C"⟩) st =
          ((false, if wf then 400 else 404), st)) := by
  refine ⟨by decide, ?_⟩
  exact token_creation_failure_persists_nothing _ _ _ (by decide)

/-- C8: each issuance step is classified a success exactly on the
engine result `tesSUCCESS`; the first failing step aborts the operation
with a structured failure whose message carries the engine result. -/
theorem ledger_result_classification (en tr pay : LedgerResult) :
    (enable_rippling en = .ok en ↔ en.txnResult = some "tesSUCCESS") ∧
    ((∃ e t p, issue_token en tr pay = .ok e t p) ↔
      (en.txnResult = some "tesSUCCESS" ∧ tr.txnResult = some "tesSUCCESS" ∧
        pay.txnResult = some "tesSUCCESS")) ∧
    (en.txnResult ≠ some "tesSUCCESS" →
      issue_token en tr pay =
        .err ("Failed to enable rippling: " ++ showOptRes en.txnResult)) ∧
    (en.txnResult = some "tesSUCCESS" → tr.txnResult ≠ some "tesSUCCESS" →
      issue_token en tr pay =
        .err ("Failed to create trustline: " ++ showOptRes tr.txnResult)) ∧
    (en.txnResult = some "tesSUCCESS" → tr.txnResult = some "tesSUCCESS" →
      pay.txnResult ≠ some "tesSUCCESS" →
      issue_token en tr pay =
        .err ("Failed to issue token: " ++ showOptRes pay.txnResult)) := by
  refine ⟨?_, ?_, ?_, ?_, ?_⟩
  · by_cases h1 : en.txnResult = some "tesSUCCESS" <;> simp [enable_rippling, h1]
  · constructor
    · rintro ⟨e, t, p, hok⟩
      by_cases h1 : en.txnResult = some "tesSUCCESS"
      · by_cases h2 : tr.txnResult = some "tesSUCCESS"
        · by_cases h3 : pay.txnResult = some "tesSUCCESS"
          · exact ⟨h1, h2, h3⟩
          · simp [issue_token, enable_rippling, h1, h2, h3] at hok
        · simp [issue_token, enable_rippling, h1, h2] at hok
      · simp [issue_token, enable_rippling, h1] at hok
    · rintro ⟨h1, h2, h3⟩
      exact ⟨en, tr, pay, by simp [issue_token, enable_rippling, h1, h2, h3]⟩
  · intro h1
    simp [issue_token, enable_rippling, h1]
  · intro h1 h2
    simp [issue_token, enable_rippling, h1, h2]
  · intro h1 h2 h3
    simp [issue_token, enable_rippling, h1, h2, h3]

/-- C8 witness: a trust-line step rejected with `tecNO_LINE_INSUF_RESERVE`
is classified a failure carrying that engine result. -/
theorem ledger_result_classification_witness :
    ((⟨some "tesSUCCESS", some "A"⟩ : LedgerResult).txnResult = some "tesSUCCESS" ∧
     (⟨some "tecNO_LINE_INSUF_RESERVE", some "B"⟩ : LedgerResult).txnResult ≠
       some "tesSUCCESS") ∧
    issue_token ⟨some "tesSUCCESS", some "A"⟩ ⟨some "tecNO_LINE_INSUF_RESERVE", some "B"⟩
        ⟨some "tesSUCCESS", some "C"⟩ =
      .err ("Failed to create trustline: " ++
        showOptRes (⟨some "tecNO_LINE_INSUF_RESERVE", some "B"⟩ : LedgerResult).txnResult) := by
  refine ⟨⟨by decide, by decide⟩, ?_⟩
  exact (ledger_result_classification ⟨some "tesSUCCESS", some "A"⟩
    ⟨some "tecNO_LINE_INSUF_RESERVE", some "B"⟩ ⟨some "tesSUCCESS", some "C"⟩).2.2.2.1
    (by decide) (by decide)

theorem mapM_ok_mem (f : JFields → Except String JFields) :
    ∀ l : List JFields, (∀ d ∈ l, ∃ r, f d = .ok r) →
      ∃ res, l.mapM f = .ok res ∧ ∀ d ∈ l, ∀ r, f d = .ok r → r ∈ res := by
  intro l
  induction l with
  | nil => exact fun _ => ⟨[], rfl, by simp⟩
  | cons x tl ih =>
      intro h
      obtain ⟨r0, hr0⟩ := h x (by simp)
      obtain ⟨res, hres, hmem⟩ := ih (fun d hd => h d (by simp [hd]))
      refine ⟨r0 :: res, ?_, ?_⟩
      · rw [List.mapM_cons, hr0, hres]
        rfl
      · intro d hd r hr
        rcases List.mem_cons.mp hd with rfl | hd2
        · rw [hr0] at hr
          simp only [Except.ok.injEq] at hr
          simp [hr]
        · simp [hmem d hd2 r hr]

/-- C9: when every active listing carries a metadata hash, the listing
read paths never fail as a whole: `get_active_listings` returns all
active listings, and each listing whose metadata resolution fails is
still returned, with the placeholder error object in place of the
metadata; `get_listing` behaves the same on its single listing. -/
theorem listing_reads_attach_placeholder
    (ms : List MetaDoc) (st : List JFields)
    (hok : ∀ d ∈ st.filter (fun d => hasStrF d "status" "active"),
      ∃ h, getF d "metadata_hash" = some (J.str h)) :
    (∃ res, get_active_listings ms st = .ok res ∧
      ∀ d ∈ st.filter (fun d => hasStrF d "status" "active"), ∀ h,
        getF d "metadata_hash" = some (J.str h) →
        ∀ e, get_metadata_by_hash ms h = .error e →
          setF d "metadata" errMeta ∈ res) ∧
    (∀ lid d h e, st.find? (listingFilter lid) = some d →
      getF d "metadata_hash" = some (J.str h) →
      get_metadata_by_hash ms h = .error e →
      get_listing ms st lid = .ok (setF d "metadata" errMeta)) := by
  constructor
  · have hattach : ∀ d ∈ st.filter (fun d => hasStrF d "status" "active"),
        ∃ r, attachMeta ms d = .ok r := by
      intro d hd
      obtain ⟨h, hh⟩ := hok d hd
      cases hmh : get_metadata_by_hash ms h with
      | ok r => exact ⟨setF d "metadata" (J.obj r.metadata), by simp [attachMeta, hh, hmh]⟩
      | error e => exact ⟨setF d "metadata" errMeta, by simp [attachMeta, hh, hmh]⟩
    obtain ⟨res, hres, hmem⟩ := mapM_ok_mem (attachMeta ms) _ hattach
    refine ⟨res, hres, ?_⟩
    intro d hd h hh e he
    exact hmem d hd _ (by simp [attachMeta, hh, he])
  · intro lid d h e hfind hh he
    rw [get_listing, hfind]
    show attachMeta ms d = _
    simp [attachMeta, hh, he]

/-- C9 witness: one active listing whose hash resolves to nothing in an
empty metadata store is still returned, carrying the placeholder. -/
theorem listing_reads_attach_placeholder_witness :
    (∀ d ∈ [JFields.cons "listing_id" (J.str "L1") (.cons "status" (J.str "active")
        (.cons "metadata_hash" (J.str "h") .nil))].filter
        (fun d => hasStrF d "status" "active"),
      ∃ h, getF d "metadata_hash" = some (J.str h)) ∧
    (∃ res, get_active_listings []
        [JFields.cons "listing_id" (J.str "L1") (.cons "status" (J.str "active")
          (.cons "metadata_hash" (J.str "h") .nil))] = .ok res ∧
      ∀ d ∈ [JFields.cons "listing_id" (J.str "L1") (.cons "status" (J.str "active")
          (.cons "metadata_hash" (J.str "h") .nil))].filter
          (fun d => hasStrF d "status" "active"), ∀ h,
        getF d "metadata_hash" = some (J.str h) →
        ∀ e, get_metadata_by_hash [] h = .error e →
          setF d "metadata" errMeta ∈ res) := by
  constructor
  · intro d hd
    have hde : d = JFields.cons "listing_id" (J.str "L1") (.cons "status" (J.str "active")
        (.cons "metadata_hash" (J.str "h") .nil)) := by
      exact (by simpa using hd : _ ∧ hasStrF d "status" "active" = true).1
    subst hde
    exact ⟨"h", by decide⟩
  · exact (listing_reads_attach_placeholder []
      [JFields.cons "listing_id" (J.str "L1") (.cons "status" (J.str "active")
        (.cons "metadata_hash" (J.str "h") .nil))]
      (by
        intro d hd
        have hde : d = JFields.cons "listing_id" (J.str "L1") (.cons "status" (J.str "active")
            (.cons "metadata_hash" (J.str "h") .nil)) := by
          exact (by simpa using hd : _ ∧ hasStrF d "status" "active" = true).1
        subst hde
        exact ⟨"h", by decide⟩)).1

theorem find?_append_of_none {α : Type} (l1 l2 : List α) (p : α → Bool)
    (h : ∀ x ∈ l1, p x = false) : (l1 ++ l2).find? p = l2.find? p := by
  induction l1 with
  | nil => rfl
  | cons x tl ih =>
      rw [List.cons_append, List.find?_cons_of_neg _ (by simp [h x (by simp)])]
      exact ih (fun y hy => h y (by simp [hy]))

/-- An out-of-band overwrite of the payload stored under a hash
(claim C6's corruption scenario): every document under that hash gets
its `metadata` field replaced, the indexed fields untouched. -/
def corruptByHash (st : List MetaDoc) (h : String) (m2 : JFields) : List MetaDoc :=
  st.map (fun d => if d.metadata_hash = h then { d with metadata := m2 } else d)

/-- C6: storing metadata `m` yields its hash and id; reading back by
that hash returns `m` unchanged and verified; after the stored payload
is replaced out-of-band by any payload hashing differently, the read by
hash fails the integrity check while the read by id still answers,
carrying the corrupted payload and `verified = false`. -/
theorem metadata_roundtrip_and_corruption
    (st : List MetaDoc) (m : JFields) (newId : String) (now : ℤ)
    (hfresh : ∀ d ∈ st, d.metadata_hash ≠ compute_metadata_hash m ∧
      d.metadata_id ≠ newId) :
    store_metadata st m newId now =
      .ok ((compute_metadata_hash m, newId),
        st ++ [⟨newId, compute_metadata_hash m, m, now⟩]) ∧
    get_metadata_by_hash (st ++ [⟨newId, compute_metadata_hash m, m, now⟩])
      (compute_metadata_hash m) = .ok ⟨m, compute_metadata_hash m, true⟩ ∧
    (∀ m2, compute_metadata_hash m2 ≠ compute_metadata_hash m →
      get_metadata_by_hash
          (corruptByHash (st ++ [⟨newId, compute_metadata_hash m, m, now⟩])
            (compute_metadata_hash m) m2) (compute_metadata_hash m) =
        .error "Failed to retrieve metadata: Metadata integrity check failed" ∧
      get_metadata_by_id
          (corruptByHash (st ++ [⟨newId, compute_metadata_hash m, m, now⟩])
            (compute_metadata_hash m) m2) newId =
        .ok ⟨m2, compute_metadata_hash m, false⟩) := by
  refine ⟨?_, ?_, ?_⟩
  · rw [store_metadata]
    rw [if_neg ?_]
    simp only [List.any_eq_true, not_exists, not_and, Bool.or_eq_true, decide_eq_true_eq]
    intro d hd
    push_neg
    exact hfresh d hd
  · rw [get_metadata_by_hash,
      find?_append_of_none st _ _ (fun d hd => by simp [(hfresh d hd).1]),
      List.find?_cons_of_pos _ (by simp)]
    simp [verify_metadata]
  · intro m2 hm2
    have hmapped : corruptByHash (st ++ [⟨newId, compute_metadata_hash m, m, now⟩])
        (compute_metadata_hash m) m2 =
        corruptByHash st (compute_metadata_hash m) m2 ++
          [⟨newId, compute_metadata_hash m, m2, now⟩] := by
      simp [corruptByHash]
    have hhash : ∀ x ∈ corruptByHash st (compute_metadata_hash m) m2,
        x.metadata_hash ≠ compute_metadata_hash m := by
      intro x hx
      obtain ⟨y, hy, hyx⟩ := List.mem_map.mp hx
      have := (hfresh y hy).1
      by_cases hc : y.metadata_hash = compute_metadata_hash m
      · exact absurd hc this
      · rw [if_neg hc] at hyx
        rw [← hyx]
        exact this
    have hid : ∀ x ∈ corruptByHash st (compute_metadata_hash m) m2,
        x.metadata_id ≠ newId := by
      intro x hx
      obtain ⟨y, hy, hyx⟩ := List.mem_map.mp hx
      have := (hfresh y hy).2
      by_cases hc : y.metadata_hash = compute_metadata_hash m
      · rw [if_pos hc] at hyx
        rw [← hyx]
        exact this
      · rw [if_neg hc] at hyx
        rw [← hyx]
        exact this
    constructor
    · rw [hmapped, get_metadata_by_hash,
        find?_append_of_none _ _ _ (fun d hd => by simp [hhash d hd]),
        List.find?_cons_of_pos _ (by simp)]
      simp [verify_metadata, hm2]
    · rw [hmapped, get_metadata_by_id,
        find?_append_of_none _ _ _ (fun d hd => by simp [hid d hd]),
        List.find?_cons_of_pos _ (by simp)]
      simp [verify_metadata, hm2]

set_option maxRecDepth 1000000 in
/-- C6 witness: on the empty store, metadata `a := 1` round-trips
verified, and an out-of-band overwrite with `a := 2` (whose hash
differs) fails the read by hash and de-verifies the read by id. -/
theorem metadata_roundtrip_and_corruption_witness :
    (∀ d ∈ ([] : List MetaDoc), d.metadata_hash ≠
        compute_metadata_hash (.cons "a" (J.num 1) .nil) ∧ d.metadata_id ≠ "m0") ∧
    compute_metadata_hash (.cons "a" (J.num 2) .nil) ≠
      compute_metadata_hash (.cons "a" (J.num 1) .nil) ∧
    (store_metadata [] (.cons "a" (J.num 1) .nil) "m0" 0 =
      .ok ((compute_metadata_hash (.cons "a" (J.num 1) .nil), "m0"),
        [] ++ [⟨"m0", compute_metadata_hash (.cons "a" (J.num 1) .nil),
          .cons "a" (J.num 1) .nil, 0⟩]) ∧
     get_metadata_by_hash
        ([] ++ [⟨"m0", compute_metadata_hash (.cons "a" (J.num 1) .nil),
          .cons "a" (J.num 1) .nil, 0⟩])
        (compute_metadata_hash (.cons "a" (J.num 1) .nil)) =
      .ok ⟨.cons "a" (J.num 1) .nil, compute_metadata_hash (.cons "a" (J.num 1) .nil), true⟩ ∧
     (get_metadata_by_hash
          (corruptByHash ([] ++ [⟨"m0", compute_metadata_hash (.cons "a" (J.num 1) .nil),
              .cons "a" (J.num 1) .nil, 0⟩])
            (compute_metadata_hash (.cons "a" (J.num 1) .nil)) (.cons "a" (J.num 2) .nil))
          (compute_metadata_hash (.cons "a" (J.num 1) .nil)) =
        .error "Failed to retrieve metadata: Metadata integrity check failed" ∧
      get_metadata_by_id
          (corruptByHash ([] ++ [⟨"m0", compute_metadata_hash (.cons "a" (J.num 1) .nil),
              .cons "a" (J.num 1) .nil, 0⟩])
            (compute_metadata_hash (.cons "a" (J.num 1) .nil)) (.cons "a" (J.num 2) .nil))
          "m0" =
        .ok ⟨.cons "a" (J.num 2) .nil,
          compute_metadata_hash (.cons "a" (J.num 1) .nil), false⟩)) := by
  refine ⟨by simp, by decide, ?_⟩
  obtain ⟨h1, h2, h3⟩ := metadata_roundtrip_and_corruption [] (.cons "a" (J.num 1) .nil)
    "m0" 0 (by simp)
  exact ⟨h1, h2, h3 (.cons "a" (J.num 2) .nil) (by decide)⟩

/-- Comparison of object fields by key, the order `sorted` uses. -/
def keyLe (p q : String × J) : Prop := p.1 ≤ q.1

instance : DecidableRel keyLe := fun p q => inferInstanceAs (Decidable (p.1 ≤ q.1))

instance : IsTotal (String × J) keyLe := ⟨fun p q => le_total p.1 q.1⟩

instance : IsTrans (String × J) keyLe := ⟨fun _ _ _ h1 h2 => le_trans h1 h2⟩

theorem toList_ofList (l : List (String × J)) : (JFields.ofList l).toList = l := by
  induction l with
  | nil => rfl
  | cons p tl ih => cases p with | mk k v => simp [JFields.ofList, JFields.toList, ih]

theorem ofList_toList (fs : JFields) : JFields.ofList fs.toList = fs := by
  induction fs using JFields.indOn with
  | hnil => rfl
  | hcons k v tl ih => simp [JFields.ofList, JFields.toList, ih]

theorem toList_canonFields (fs : JFields) :
    (canonFields fs).toList = fs.toList.map (fun p => (p.1, canonJ p.2)) := by
  induction fs using JFields.indOn with
  | hnil => rfl
  | hcons k v tl ih => simp [canonFields, JFields.toList, ih]

theorem toList_insF (k : String) (v : J) (fs : JFields) :
    (insF k v fs).toList = List.orderedInsert keyLe (k, v) fs.toList := by
  induction fs using JFields.indOn with
  | hnil => rfl
  | hcons k2 v2 tl ih =>
      by_cases h : k ≤ k2
      · simp [insF, h, JFields.toList, List.orderedInsert, keyLe]
      · simp [insF, h, JFields.toList, List.orderedInsert, keyLe, ih]

theorem toList_sortF (fs : JFields) :
    (sortF fs).toList = List.insertionSort keyLe fs.toList := by
  induction fs using JFields.indOn with
  | hnil => rfl
  | hcons k v tl ih => simp [sortF, JFields.toList, List.insertionSort, toList_insF, ih]

theorem insertionSort_eq_of_perm_of_nodup_keys
    (l1 l2 : List (String × J)) (hperm : l1.Perm l2)
    (hnd : (l1.map Prod.fst).Nodup) :
    List.insertionSort keyLe l1 = List.insertionSort keyLe l2 := by
  have hp : (List.insertionSort keyLe l1).Perm (List.insertionSort keyLe l2) :=
    (List.perm_insertionSort keyLe l1).trans
      (hperm.trans (List.perm_insertionSort keyLe l2).symm)
  have hnd1 : ((List.insertionSort keyLe l1).map Prod.fst).Nodup :=
    (((List.perm_insertionSort keyLe l1).map Prod.fst).nodup_iff).mpr hnd
  have hnd2 : ((List.insertionSort keyLe l2).map Prod.fst).Nodup :=
    ((hp.map Prod.fst).nodup_iff).mp hnd1
  have hstrict : ∀ l : List (String × J), List.Sorted keyLe l →
      (l.map Prod.fst).Nodup → l.Pairwise (fun p q => p.1 < q.1) := by
    intro l hs hn
    have hne : l.Pairwise (fun p q => p.1 ≠ q.1) := List.pairwise_map.mp hn
    exact (hs.and hne).imp (fun h => lt_of_le_of_ne h.1 h.2)
  haveI : IsAntisymm (String × J) (fun p q => p.1 < q.1) :=
    ⟨fun _ _ h1 h2 => absurd (h1.trans h2) (lt_irrefl _)⟩
  exact List.eq_of_perm_of_sorted hp
    (hstrict _ (List.sorted_insertionSort keyLe l1) hnd1)
    (hstrict _ (List.sorted_insertionSort keyLe l2) hnd2)

/-- C7: `compute_metadata_hash` is invariant under the insertion order
of the (duplicate-free) top-level keys: it hashes the canonical
key-sorted serialization, so permuted dicts with the same bindings hash
identically. -/
theorem compute_metadata_hash_key_order_invariant
    (l1 l2 : List (String × J)) (hperm : l1.Perm l2)
    (hnd : (l1.map Prod.fst).Nodup) :
    compute_metadata_hash (JFields.ofList l1) =
      compute_metadata_hash (JFields.ofList l2) := by
  have hmap : (l1.map (fun p => (p.1, canonJ p.2))).Perm
      (l2.map (fun p => (p.1, canonJ p.2))) := hperm.map _
  have hndm : ((l1.map (fun p => (p.1, canonJ p.2))).map Prod.fst).Nodup := by
    rw [List.map_map]
    exact hnd
  have hsort : sortF (canonFields (JFields.ofList l1)) =
      sortF (canonFields (JFields.ofList l2)) := by
    have h1 : (sortF (canonFields (JFields.ofList l1))).toList =
        (sortF (canonFields (JFields.ofList l2))).toList := by
      rw [toList_sortF, toList_sortF, toList_canonFields, toList_canonFields,
        toList_ofList, toList_ofList]
      exact insertionSort_eq_of_perm_of_nodup_keys _ _ hmap hndm
    calc sortF (canonFields (JFields.ofList l1))
        = JFields.ofList (sortF (canonFields (JFields.ofList l1))).toList :=
          (ofList_toList _).symm
      _ = JFields.ofList (sortF (canonFields (JFields.ofList l2))).toList := by rw [h1]
      _ = sortF (canonFields (JFields.ofList l2)) := ofList_toList _
  show hexTrunc16 (sha256 (dumpsSorted (JFields.ofList l1))) =
    hexTrunc16 (sha256 (dumpsSorted (JFields.ofList l2)))
  rw [dumpsSorted, dumpsSorted]
  show hexTrunc16 (sha256 (serJ (J.obj (sortF (canonFields (JFields.ofList l1)))))) =
    hexTrunc16 (sha256 (serJ (J.obj (sortF (canonFields (JFields.ofList l2))))))
  rw [hsort]

/-- C7 witness: two insertion orders of the same two bindings. -/
theorem compute_metadata_hash_key_order_invariant_witness :
    ([("a", J.num 1), ("b", J.str "x")] : List (String × J)).Perm
      [("b", J.str "x"), ("a", J.num 1)] ∧
    (([("a", J.num 1), ("b", J.str "x")] : List (String × J)).map Prod.fst).Nodup ∧
    compute_metadata_hash (JFields.ofList [("a", J.num 1), ("b", J.str "x")]) =
      compute_metadata_hash (JFields.ofList [("b", J.str "x"), ("a", J.num 1)]) := by
  refine ⟨by decide, by decide, ?_⟩
  exact compute_metadata_hash_key_order_invariant _ _ (by decide) (by decide)
